import Mathlib

/-
Shallow embedding of the junction-plotting pipeline of SpliceV
(bin/circlevis.py): intron rescaling (scale_introns), coordinate
transformation (transform), strand filtering (strand_filter), canonical
junction extraction (junctions), circular junction detection (circles),
the per-sample wiring of main, and the label-collision resolution loop
(intersect), together with theorems checking the specified properties.

Modelling conventions:
- Python float arithmetic is idealized as exact rational arithmetic (Rat).
- Genomic coordinates are integers (Int), counts are naturals (Nat).
- A CIGAR string is represented as its parsed list of (length, op) tokens;
  the regex sum over "<n>M" tokens becomes a sum over tokens whose op is
  the character M.
- Alignment records (pysam reads) are an external collaborator; a Read
  record carries exactly the fields the source consults, with the
  supplementary-alignment tag payload already split at the commas.
- The pysam intron tallying (bam.find_introns) is external to the
  repository; it is passed to junctions as a function parameter.
- The randomized horizontal jitter and the unbounded recursion of
  intersect are modelled by an explicit list of jitter choices; the
  recursion answers none when the list is exhausted before the collision
  test clears, and otherwise returns the final box and the unused jitter.
-/

namespace SpliceV

/-- Rescaled exon coordinates, bin/circlevis.py lines 320-332: walk the
exon list keeping the previous original interval and the previous new
interval; each new interval starts at the previous new stop plus the
original gap divided by the scaling factor and keeps the original
length. -/
def scaleAux (f : ℚ) : (ℚ × ℚ) → (ℚ × ℚ) → List (ℚ × ℚ) → List (ℚ × ℚ)
  | _, _, [] => []
  | prevOrig, prevNew, c :: rest =>
    let left := prevNew.2 + (c.1 - prevOrig.2) / f
    let right := left + (c.2 - c.1)
    (left, right) :: scaleAux f c (left, right) rest

/-- scale_introns, bin/circlevis.py lines 313-332.  A non-positive factor
returns the input unchanged (after a printed warning, which is not
modelled).  The empty list makes the Python code raise an IndexError at
coords[0]; that failure is modelled as none. -/
def scale_introns (coords : List (ℚ × ℚ)) (scaling_factor : ℚ) :
    Option (List (ℚ × ℚ)) :=
  if scaling_factor ≤ 0 then some coords
  else
    match coords with
    | [] => none
    | c :: rest => some (c :: scaleAux scaling_factor c c rest)

/-- The flattening [i for j in l for i in j] of a list of pairs,
bin/circlevis.py lines 339-340. -/
def flattenPairs : List (ℚ × ℚ) → List ℚ
  | [] => []
  | p :: rest => p.1 :: p.2 :: flattenPairs rest

/-- The index-selection loop of transform, bin/circlevis.py lines
342-345: scan consecutive pairs of the flattened sequence, break at the
first pair that brackets the query, and otherwise leave the index at its
final value (the last pair). -/
def loopSel (q : ℚ) : List ℚ → ℕ → ℕ
  | [], i => i
  | [_], i => i
  | l0 :: l1 :: rest, i =>
    if l0 ≤ q ∧ q ≤ l1 then i
    else
      match rest with
      | [] => i
      | _ :: _ => loopSel q (l1 :: rest) (i + 1)

/-- transform, bin/circlevis.py lines 335-358.  Returns none exactly
where the Python code raises: fewer than two flattened original
coordinates (the loop variables stay unbound), or a scaled-coordinate
access out of range. -/
def transform (original scaled : List (ℚ × ℚ)) (query : ℚ) : Option ℚ :=
  let oc := flattenPairs original
  let sc := flattenPairs scaled
  if oc.length < 2 then none
  else
    let i := loopSel query oc 0
    match oc[i]?, oc[i + 1]? with
    | some left, some right =>
      let nlr : Option (ℚ × ℚ) :=
        if i + 2 < sc.length then
          match sc[i]?, sc[i + 1]? with
          | some nl, some nr => some (nl, nr)
          | _, _ => none
        else
          match sc[i]? with
          | some nl => some (nl, query)
          | none => none
      match nlr with
      | some (nl, nr) =>
        if right - left = 0 then some nl
        else some ((query - left) * (nr - nl) / (right - left) + nl)
      | none => none
    | _, _ => none

/-- The index of the first consecutive pair of the list that brackets the
query, if any pair does. -/
def firstBracket (q : ℚ) : List ℚ → Option ℕ
  | [] => none
  | [_] => none
  | x :: y :: rest =>
    if x ≤ q ∧ q ≤ y then some 0
    else (firstBracket q (y :: rest)).map (· + 1)

/-- The bracketing index in specification form: the first consecutive
pair that brackets the query, defaulting to the last pair. -/
def bracketIdx (oc : List ℚ) (q : ℚ) : ℕ :=
  match firstBracket q oc with
  | some j => j
  | none => oc.length - 2

/-- Modelled from the specification wording of the transform claim: the
bracketing segment is the first flattened original pair bracketing the
query; the scaled pair at that index is used as the scaled bounds
whenever the flattened scaled sequence has a pair at that index
(both indices i and i+1 exist), and only otherwise does the query itself
become the scaled right bound; a zero-width original segment returns the
left scaled bound. -/
def transform_claimed (original scaled : List (ℚ × ℚ)) (query : ℚ) : ℚ :=
  let oc := flattenPairs original
  let sc := flattenPairs scaled
  let i := bracketIdx oc query
  let left := oc.getD i 0
  let right := oc.getD (i + 1) 0
  let nl := sc.getD i 0
  let nr := if i + 1 < sc.length then sc.getD (i + 1) 0 else query
  if right - left = 0 then nl
  else (query - left) * (nr - nl) / (right - left) + nl

/-- The corrected specification-level description of transform: identical
to transform_claimed except that the scaled pair at the bracketing index
is used only when the flattened scaled sequence extends strictly beyond
it (length greater than i+2), which is the condition the source actually
tests. -/
def transform_fixed (original scaled : List (ℚ × ℚ)) (query : ℚ) : ℚ :=
  let oc := flattenPairs original
  let sc := flattenPairs scaled
  let i := bracketIdx oc query
  let left := oc.getD i 0
  let right := oc.getD (i + 1) 0
  let nl := sc.getD i 0
  let nr := if i + 2 < sc.length then sc.getD (i + 1) 0 else query
  if right - left = 0 then nl
  else (query - left) * (nr - nl) / (right - left) + nl

/-- The fields of an alignment record that bin/circlevis.py consults.
The sa fields are the comma-split payload of the supplementary-alignment
tag (contig, start, strand, cigar); they are meaningful only when has_SA
is set, mirroring read.get_tag being guarded by read.has_tag. -/
structure Read where
  is_read1 : Bool
  is_read2 : Bool
  is_reverse : Bool
  is_supplementary : Bool
  has_SA : Bool
  reference_name : String
  reference_start : ℤ
  reference_end : ℤ
  cigar : List (ℕ × Char)
  sa_chromosome : String
  sa_start : ℤ
  sa_strand : Char
  sa_cigar : List (ℕ × Char)
deriving DecidableEq

/-- The strand swap table of bin/circlevis.py line 634, total outside its
domain (the source consults it only after a membership test). -/
def strand_switch (s : Char) : Char :=
  if s = '+' then '-' else if s = '-' then '+' else s

/-- The effective strand after the reverse-protocol swap. -/
def effStrand (s : Char) (rev : Bool) : Char :=
  if rev then strand_switch s else s

/-- strand_filter, bin/circlevis.py lines 629-646 (1 is modelled as true,
0 as false). -/
def strand_filter (read : Read) (strand : Option Char) (rev : Bool) : Bool :=
  match strand with
  | none => true
  | some s =>
    if ¬(s = '+' ∨ s = '-') then true
    else
      let s2 := if rev then strand_switch s else s
      if read.is_read1 ∧ ((s2 = '+' ∧ read.is_reverse) ∨
          (s2 = '-' ∧ ¬read.is_reverse)) then false
      else if read.is_read2 ∧ ((s2 = '+' ∧ ¬read.is_reverse) ∨
          (s2 = '-' ∧ read.is_reverse)) then false
      else true

/-- The matched-base total of a CIGAR, bin/circlevis.py lines 683-684:
the regex collects every "<n>M" token and the lengths are summed. -/
def matchSum (cig : List (ℕ × Char)) : ℕ :=
  ((cig.filter fun p => p.2 = 'M').map Prod.fst).sum

/-- The per-read body of the circles loop, bin/circlevis.py lines
671-691: a read contributes a (donor, acceptor) pair when it passes the
strand filter, carries the supplementary-alignment tag, is not itself
supplementary, its companion maps to the same contig, and both matched
totals strictly exceed min_overhang. -/
def readCandidate (min_overhang : ℕ) (strand : Option Char) (rev : Bool)
    (read : Read) : Option (ℤ × ℤ) :=
  if strand_filter read strand rev ∧ read.has_SA ∧ ¬read.is_supplementary then
    if read.sa_chromosome ≠ read.reference_name then none
    else if ¬(matchSum read.cigar > min_overhang ∧
        matchSum read.sa_cigar > min_overhang) then none
    else some (min (read.reference_end + 1) read.sa_start,
               max (read.reference_end + 1) read.sa_start)
  else none

/-- One update of the insertion-ordered counting map modelling the
defaultdict tally circ_d of bin/circlevis.py line 691. -/
def tallyInsert (acc : List ((ℤ × ℤ) × ℕ)) (k : ℤ × ℤ) :
    List ((ℤ × ℤ) × ℕ) :=
  if acc.any fun p => p.1 = k then
    acc.map fun p => if p.1 = k then (p.1, p.2 + 1) else p
  else acc ++ [(k, 1)]

/-- The full tally of a list of keys, in insertion order. -/
def tally (l : List (ℤ × ℤ)) : List ((ℤ × ℤ) × ℕ) :=
  l.foldl tallyInsert []

/-- The final filter shared by junctions and circles, bin/circlevis.py
lines 657-661 and 693-697: keep tallied intervals inside the window with
at least min_junctions supporting reads. -/
def junctionsFilter (introns : List ((ℤ × ℤ) × ℕ))
    (upstream downstream : ℤ) (min_junctions : ℕ) : List (ℤ × ℤ × ℕ) :=
  introns.filterMap fun p =>
    if upstream ≤ p.1.1 ∧ p.1.2 ≤ downstream ∧ min_junctions ≤ p.2 then
      some (p.1.1, p.1.2, p.2)
    else none

/-- junctions, bin/circlevis.py lines 649-662.  The reads argument is
the fetched window; find_introns is the external pysam tally of intron
intervals, applied to the strand-filtered stream. -/
def junctions (find_introns : List Read → List ((ℤ × ℤ) × ℕ))
    (reads : List Read) (upstream downstream : ℤ) (min_junctions : ℕ)
    (strand : Option Char) (rev : Bool) : List (ℤ × ℤ × ℕ) :=
  junctionsFilter
    (find_introns (reads.filter fun r => strand_filter r strand rev))
    upstream downstream min_junctions

/-- circles, bin/circlevis.py lines 665-698: tally the per-read
(donor, acceptor) candidates, then apply the window and count filter. -/
def circles (reads : List Read) (upstream downstream : ℤ)
    (min_overhang min_junctions : ℕ) (strand : Option Char) (rev : Bool) :
    List (ℤ × ℤ × ℕ) :=
  junctionsFilter
    (tally (reads.filterMap (readCandidate min_overhang strand rev)))
    upstream downstream min_junctions

/-- The per-sample extraction wiring of main, bin/circlevis.py lines
737-738: canonical junctions receive the user filter threshold while
circles receive the fixed constants min_overhang 10 and min_junctions 2. -/
def process_sample (find_introns : List Read → List ((ℤ × ℤ) × ℕ))
    (reads : List Read) (transcript_start transcript_stop : ℤ)
    (filter_arg : ℕ) (strand : Option Char) (rev : Bool) :
    List (ℤ × ℤ × ℕ) × List (ℤ × ℤ × ℕ) :=
  (junctions find_introns reads transcript_start transcript_stop
     filter_arg strand rev,
   circles reads transcript_start transcript_stop 10 2 strand rev)

/-- A label bounding box, bin/circlevis.py lines 89-95. -/
structure Box where
  x0 : ℚ
  x1 : ℚ
  y0 : ℚ
  y1 : ℚ
deriving DecidableEq

/-- The approximate intersection test of intersect, bin/circlevis.py
lines 100-104: either x corner of the second box lies within the first
box expanded horizontally by a quarter of its width, and either y corner
lies within the first box expanded vertically by a quarter of its
height. -/
def collides (a b : Box) : Prop :=
  ((a.x0 - (a.x1 - a.x0) / 4 ≤ b.x0 ∧ b.x0 ≤ a.x1 + (a.x1 - a.x0) / 4) ∨
   (a.x0 - (a.x1 - a.x0) / 4 ≤ b.x1 ∧ b.x1 ≤ a.x1 + (a.x1 - a.x0) / 4)) ∧
  ((a.y0 - (a.y1 - a.y0) / 4 ≤ b.y0 ∧ b.y0 ≤ a.y1 + (a.y1 - a.y0) / 4) ∨
   (a.y0 - (a.y1 - a.y0) / 4 ≤ b.y1 ∧ b.y1 ≤ a.y1 + (a.y1 - a.y0) / 4))

instance (a b : Box) : Decidable (collides a b) := by
  unfold collides; infer_instance

/-- One nudge of the second box, bin/circlevis.py lines 105-118: a fixed
vertical step of 0.02 downward when subtract is set and upward otherwise,
and a horizontal step of a tenth of the x tolerance whose sign is the
random jitter choice. -/
def moveBox (a b : Box) (subtract : Bool) (j : Bool) : Box :=
  let xextra := (a.x1 - a.x0) / 4
  let dy : ℚ := if subtract then -(2 / 100) else 2 / 100
  let dx : ℚ := if j then xextra / 10 else -(xextra / 10)
  ⟨b.x0 + dx, b.x1 + dx, b.y0 + dy, b.y1 + dy⟩

/-- intersect, bin/circlevis.py lines 98-126: recurse, nudging the second
box, until the collision test clears, then return the second box.  The
infinite stream of random jitter choices is cut to an explicit list; none
means the recursion was still running when the list ran out.  The unused
suffix of the list is returned so that consecutive calls can share one
stream. -/
def intersect (a : Box) (subtract : Bool) :
    List Bool → Box → Option (Box × List Bool)
  | [], b => if collides a b then none else some (b, [])
  | j :: rest, b =>
    if collides a b then intersect a subtract rest (moveBox a b subtract j)
    else some (b, j :: rest)

/-- The index pairs visited by the nested resolution loops of
bin/circlevis.py lines 298-303 (and 260-264): every ordered pair of
distinct indices, outer index first. -/
def pairList (n : ℕ) : List (ℕ × ℕ) :=
  (List.range n).flatMap fun ia =>
    ((List.range n).filter fun ib => decide (ib ≠ ia)).map fun ib => (ia, ib)

/-- The body of the resolution loops: for each index pair, run intersect
on the current boxes at those indices and store the moved second box. -/
def resolvePairs (subtract : Bool) :
    List (ℕ × ℕ) → List Box → List Bool → Option (List Box × List Bool)
  | [], boxes, js => some (boxes, js)
  | p :: rest, boxes, js =>
    match boxes[p.1]?, boxes[p.2]? with
    | some a, some b =>
      match intersect a subtract js b with
      | none => none
      | some (b2, js2) => resolvePairs subtract rest (boxes.set p.2 b2) js2
    | _, _ => none

/-- The full label-collision resolution pass over all pairs of boxes,
bin/circlevis.py lines 298-303. -/
def resolveAll (subtract : Bool) (boxes : List Box) (js : List Bool) :
    Option (List Box × List Bool) :=
  resolvePairs subtract (pairList boxes.length) boxes js

theorem scaleAux_forall2 (f : ℚ) (l : List (ℚ × ℚ)) : ∀ po pn : ℚ × ℚ,
    List.Forall₂ (fun c n => n.2 - n.1 = c.2 - c.1) l (scaleAux f po pn l) := by
  induction l with
  | nil => intro po pn; exact List.Forall₂.nil
  | cons c rest ih =>
    intro po pn
    simp only [scaleAux]
    exact List.Forall₂.cons (by ring) (ih c _)

theorem scaleAux_chain (f : ℚ) (l : List (ℚ × ℚ)) : ∀ po pn : ℚ × ℚ,
    List.Chain' (fun x y => y.2.1 = x.2.2 + (y.1.1 - x.1.2) / f)
      ((po, pn) :: l.zip (scaleAux f po pn l)) := by
  induction l with
  | nil => intro po pn; simp [scaleAux]
  | cons c rest ih =>
    intro po pn
    simp only [scaleAux, List.zip_cons_cons]
    exact List.chain'_cons.mpr ⟨rfl, ih c _⟩

/-- Claim C1: for every nonempty exon interval list and every scaling
factor f > 0, scale_introns succeeds and returns a list of the same
length whose first interval equals the first input interval, in which
every interval keeps the length of the corresponding original interval,
and each subsequent interval starts at the previous new stop plus the
original inter-exon gap divided by f. -/
theorem C1_scale_introns_correct (coords : List (ℚ × ℚ)) (f : ℚ)
    (nc : List (ℚ × ℚ)) (hf : 0 < f)
    (h : scale_introns coords f = some nc) :
    nc.length = coords.length ∧ nc.head? = coords.head? ∧
    List.Forall₂ (fun c n => n.2 - n.1 = c.2 - c.1) coords nc ∧
    List.Chain' (fun x y => y.2.1 = x.2.2 + (y.1.1 - x.1.2) / f)
      (coords.zip nc) := by
  unfold scale_introns at h
  rw [if_neg (not_le.mpr hf)] at h
  cases coords with
  | nil => simp at h
  | cons c rest =>
    injection h with h
    subst h
    refine ⟨?_, rfl, ?_, ?_⟩
    · have hlen := (scaleAux_forall2 f rest c c).length_eq
      simp [hlen]
    · exact List.Forall₂.cons (by ring) (scaleAux_forall2 f rest c c)
    · simpa [List.zip_cons_cons] using scaleAux_chain f rest c c

/-- Closed instance of C1: the scenario from the specification, scaling
[(100,200),(500,600),(900,1000)] by 10 yields
[(100,200),(230,330),(360,460)], and the theorem applies to it. -/
theorem C1_scale_introns_correct_witness :
    scale_introns [((100 : ℚ), 200), (500, 600), (900, 1000)] 10 =
      some [(100, 200), (230, 330), (360, 460)] ∧
    ([((100 : ℚ), 200), (230, 330), (360, 460)] : List (ℚ × ℚ)).length =
      ([((100 : ℚ), 200), (500, 600), (900, 1000)] : List (ℚ × ℚ)).length := by
  have hs : scale_introns [((100 : ℚ), 200), (500, 600), (900, 1000)] 10 =
      some [(100, 200), (230, 330), (360, 460)] := by
    norm_num [scale_introns, scaleAux]
  exact ⟨hs, (C1_scale_introns_correct _ _ _ (by norm_num) hs).1⟩

/-- Claim C7: for every exon interval list and every scaling factor
f ≤ 0, scale_introns returns the original list unchanged and raises no
exception. -/
theorem C7_scale_introns_invalid_factor (coords : List (ℚ × ℚ)) (f : ℚ)
    (hf : f ≤ 0) : scale_introns coords f = some coords := by
  unfold scale_introns
  rw [if_pos hf]

/-- Closed instance of C7 at factor 0. -/
theorem C7_scale_introns_invalid_factor_witness :
    scale_introns [((100 : ℚ), 200), (500, 600)] 0 =
      some [(100, 200), (500, 600)] :=
  C7_scale_introns_invalid_factor _ _ (by norm_num)

theorem junctionsFilter_mem (introns : List ((ℤ × ℤ) × ℕ))
    (up down : ℤ) (mj : ℕ) (s t : ℤ) (c : ℕ) :
    (s, t, c) ∈ junctionsFilter introns up down mj ↔
      ((s, t), c) ∈ introns ∧ up ≤ s ∧ t ≤ down ∧ mj ≤ c := by
  unfold junctionsFilter
  rw [List.mem_filterMap]
  constructor
  · rintro ⟨⟨⟨a, b⟩, k⟩, hp, heq⟩
    by_cases hc : up ≤ a ∧ b ≤ down ∧ mj ≤ k
    · rw [if_pos hc] at heq
      simp only [Option.some.injEq, Prod.mk.injEq] at heq
      obtain ⟨h1, h2, h3⟩ := heq
      subst h1; subst h2; subst h3
      exact ⟨hp, hc⟩
    · rw [if_neg hc] at heq
      exact absurd heq (by simp)
  · rintro ⟨hp, h1, h2, h3⟩
    exact ⟨((s, t), c), hp, by rw [if_pos ⟨h1, h2, h3⟩]⟩

theorem tallyInsert_keys (acc : List ((ℤ × ℤ) × ℕ)) (k : ℤ × ℤ)
    (x : ℤ × ℤ) (hx : x ∈ (tallyInsert acc k).map Prod.fst) :
    x ∈ acc.map Prod.fst ∨ x = k := by
  unfold tallyInsert at hx
  split_ifs at hx with hc
  · left
    have hmap : (acc.map fun p => if p.1 = k then (p.1, p.2 + 1) else p).map
        Prod.fst = acc.map Prod.fst := by
      rw [List.map_map]
      apply List.map_congr_left
      intro p _
      by_cases h : p.1 = k <;> simp [h]
    rwa [hmap] at hx
  · rw [List.map_append] at hx
    rcases List.mem_append.mp hx with h | h
    · exact Or.inl h
    · right; simpa using h

theorem tally_keys (l : List (ℤ × ℤ)) : ∀ (acc : List ((ℤ × ℤ) × ℕ))
    (p : (ℤ × ℤ) × ℕ), p ∈ l.foldl tallyInsert acc →
    p.1 ∈ acc.map Prod.fst ∨ p.1 ∈ l := by
  induction l with
  | nil =>
    intro acc p hp
    exact Or.inl (List.mem_map_of_mem Prod.fst hp)
  | cons k rest ih =>
    intro acc p hp
    rcases ih (tallyInsert acc k) p hp with h | h
    · rcases tallyInsert_keys acc k p.1 h with h2 | h2
      · exact Or.inl h2
      · exact Or.inr (h2 ▸ List.mem_cons_self k rest)
    · exact Or.inr (List.mem_cons_of_mem k h)

theorem readCandidate_minmax (min_overhang : ℕ) (strand : Option Char)
    (rev : Bool) (read : Read) (d a : ℤ)
    (h : readCandidate min_overhang strand rev read = some (d, a)) :
    d = min (read.reference_end + 1) read.sa_start ∧
    a = max (read.reference_end + 1) read.sa_start := by
  unfold readCandidate at h
  split_ifs at h with h1 h2 h3
  all_goals simp_all

/-- Claim C2: every junction event emitted by the circular junction
detector satisfies start ≤ stop, because each tallied key is the pair
(min, max) of the primary end plus one and the companion start. -/
theorem C2_circles_ordered (reads : List Read) (upstream downstream : ℤ)
    (min_overhang min_junctions : ℕ) (strand : Option Char) (rev : Bool)
    (s t : ℤ) (c : ℕ)
    (h : (s, t, c) ∈ circles reads upstream downstream min_overhang
      min_junctions strand rev) : s ≤ t := by
  unfold circles at h
  rw [junctionsFilter_mem] at h
  obtain ⟨hmem, -, -, -⟩ := h
  rcases tally_keys _ [] _ hmem with h0 | h0
  · simp at h0
  · rw [List.mem_filterMap] at h0
    obtain ⟨r, -, hr⟩ := h0
    obtain ⟨hd, ha⟩ := readCandidate_minmax _ _ _ _ _ _ hr
    rw [hd, ha]
    exact min_le_max

/-- A concrete split read: primary alignment on chr1 ending at 699
(donor candidate 700), companion alignment on chr1 starting at 650, both
with 20 matched bases. -/
def sampleRead : Read :=
  ⟨true, false, false, false, true, "chr1", 100, 699, [(20, 'M')],
   "chr1", 650, '+', [(20, 'M')]⟩

/-- Closed instance of C2: the sample read makes the detector emit
(650, 700, 1), and the theorem applies to that event. -/
theorem C2_circles_ordered_witness :
    circles [sampleRead] 0 1000 10 1 none false = [(650, 700, 1)] ∧
      (650 : ℤ) ≤ 700 := by
  have hc : circles [sampleRead] 0 1000 10 1 none false =
      [(650, 700, 1)] := by decide
  exact ⟨hc, C2_circles_ordered [sampleRead] 0 1000 10 1 none false
    650 700 1 (by rw [hc]; exact List.mem_singleton.mpr rfl)⟩

/-- Claim C5: a triple is emitted by the canonical junction extractor if
and only if it is a tallied intron interval of the strand-filtered read
stream that lies inside the window and meets the count threshold. -/
theorem C5_junctions_filter_iff
    (find_introns : List Read → List ((ℤ × ℤ) × ℕ)) (reads : List Read)
    (upstream downstream : ℤ) (min_junctions : ℕ) (strand : Option Char)
    (rev : Bool) (s t : ℤ) (c : ℕ) :
    (s, t, c) ∈ junctions find_introns reads upstream downstream
        min_junctions strand rev ↔
      ((s, t), c) ∈ find_introns
          (reads.filter fun r => strand_filter r strand rev) ∧
        upstream ≤ s ∧ t ≤ downstream ∧ min_junctions ≤ c := by
  unfold junctions
  exact junctionsFilter_mem _ _ _ _ _ _ _

/-- Closed instance of C5: the junction (200, 500) with count 4 is
retained under threshold 2, and the same junction with count 1 is
dropped. -/
theorem C5_junctions_filter_iff_witness :
    ((200 : ℤ), (500 : ℤ), (4 : ℕ)) ∈
      junctions (fun _ => [((200, 500), 4)]) [] 0 1000 2 none false ∧
    ((200 : ℤ), (500 : ℤ), (1 : ℕ)) ∉
      junctions (fun _ => [((200, 500), 1)]) [] 0 1000 2 none false := by
  constructor
  · exact (C5_junctions_filter_iff _ _ _ _ _ _ _ _ _ _).mpr
      ⟨by simp, by norm_num⟩
  · intro h
    have := ((C5_junctions_filter_iff _ _ _ _ _ _ _ _ _ _).mp h).2.2.2
    omega

/-- Claim C6: a read contributes a circular-junction candidate if and
only if it passes the strand filter, carries the supplementary-alignment
tag, is not itself supplementary, its companion maps to the same contig,
and both matched-base totals strictly exceed min_overhang. -/
theorem C6_circle_candidate_iff (min_overhang : ℕ) (strand : Option Char)
    (rev : Bool) (read : Read) :
    (readCandidate min_overhang strand rev read).isSome = true ↔
      strand_filter read strand rev = true ∧ read.has_SA = true ∧
      read.is_supplementary = false ∧
      read.sa_chromosome = read.reference_name ∧
      min_overhang < matchSum read.cigar ∧
      min_overhang < matchSum read.sa_cigar := by
  unfold readCandidate
  split_ifs with h1 h2 h3 <;>
    simp only [Option.isSome_none, Option.isSome_some, Bool.false_eq_true,
      false_iff, true_iff, not_and, not_not, not_lt, gt_iff_lt, not_or,
      Bool.not_eq_true, ne_eq] at * <;>
    simp_all

/-- Claim C10: the per-sample wiring of main passes the fixed constants
min_overhang 10 and min_junctions 2 to the circular detector regardless
of the user filter threshold (so the circle output is independent of that
threshold and every circular event has count at least 2), while the user
threshold is passed to canonical junction extraction. -/
theorem C10_main_constants
    (find_introns : List Read → List ((ℤ × ℤ) × ℕ)) (reads : List Read)
    (ts te : ℤ) (f1 f2 : ℕ) (strand : Option Char) (rev : Bool) :
    (process_sample find_introns reads ts te f1 strand rev).2 =
      (process_sample find_introns reads ts te f2 strand rev).2 ∧
    (process_sample find_introns reads ts te f1 strand rev).2 =
      circles reads ts te 10 2 strand rev ∧
    (process_sample find_introns reads ts te f1 strand rev).1 =
      junctions find_introns reads ts te f1 strand rev ∧
    ∀ s t c, (s, t, c) ∈
      (process_sample find_introns reads ts te f1 strand rev).2 → 2 ≤ c := by
  refine ⟨rfl, rfl, rfl, fun s t c h => ?_⟩
  have := (junctionsFilter_mem _ _ _ _ _ _ _).mp h
  exact this.2.2.2

/-- Closed instance of C10: two copies of the sample read give a circular
event of count 2 through process_sample, and the theorem bounds its
count. -/
theorem C10_main_constants_witness :
    (process_sample (fun _ => []) [sampleRead, sampleRead]
      0 1000 5 none false).2 = [(650, 700, 2)] ∧ (2 : ℕ) ≤ 2 := by
  have hc : (process_sample (fun _ => []) [sampleRead, sampleRead]
      0 1000 5 none false).2 = [(650, 700, 2)] := by decide
  exact ⟨hc, (C10_main_constants (fun _ => []) [sampleRead, sampleRead]
    0 1000 5 5 none false).2.2.2 650 700 2
    (by rw [hc]; exact List.mem_singleton.mpr rfl)⟩

/-- Claim C8: the strand filter accepts every read when no strand is
given; otherwise, with the effective strand obtained by swapping plus and
minus exactly when the reverse-protocol flag is set, a mate-1 read is
rejected iff the effective strand is plus and the read is reverse or the
effective strand is minus and the read is forward, a mate-2 read is
rejected iff the effective strand is plus and the read is forward or the
effective strand is minus and the read is reverse, and reads that are
neither mate are accepted. -/
theorem C8_strand_filter_spec (read : Read) (s : Char) (rev : Bool) :
    strand_filter read none rev = true ∧
    (read.is_read1 = true → read.is_read2 = false →
      (strand_filter read (some s) rev = false ↔
        (effStrand s rev = '+' ∧ read.is_reverse = true) ∨
        (effStrand s rev = '-' ∧ read.is_reverse = false))) ∧
    (read.is_read2 = true → read.is_read1 = false →
      (strand_filter read (some s) rev = false ↔
        (effStrand s rev = '+' ∧ read.is_reverse = false) ∨
        (effStrand s rev = '-' ∧ read.is_reverse = true))) ∧
    (read.is_read1 = false → read.is_read2 = false →
      strand_filter read (some s) rev = true) := by
  obtain ⟨r1, r2, rrev, rsupp, rsa, rn, rst, re, rc, sac, sas, sast, sacg⟩ :=
    read
  simp only [strand_filter, effStrand, strand_switch]
  by_cases hp : s = '+' <;> by_cases hm : s = '-' <;>
    cases rev <;> cases r1 <;> cases r2 <;> cases rrev <;> simp_all

/-- Closed instance of C8: a reverse-oriented mate-1 read is rejected
under strand plus with the reverse-protocol flag unset. -/
theorem C8_strand_filter_spec_witness :
    strand_filter
      ⟨true, false, true, false, false, "chr1", 0, 0, [], "chr1", 0, '+', []⟩
      (some '+') false = false :=
  ((C8_strand_filter_spec
    ⟨true, false, true, false, false, "chr1", 0, 0, [], "chr1", 0, '+', []⟩
    '+' false).2.1 rfl rfl).mpr (Or.inl ⟨rfl, rfl⟩)

theorem flattenPairs_length (l : List (ℚ × ℚ)) :
    (flattenPairs l).length = 2 * l.length := by
  induction l with
  | nil => rfl
  | cons p rest ih => simp [flattenPairs, ih]; ring

theorem getElem?_eq_some_getD (l : List ℚ) (i : ℕ) (h : i < l.length) :
    l[i]? = some (l.getD i 0) := by
  rw [List.getElem?_eq_getElem h, List.getD_eq_getElem?_getD,
    List.getElem?_eq_getElem h]
  rfl

theorem chain'_getD_lt (l : List ℚ) (h : List.Chain' (· < ·) l) (i j : ℕ)
    (hij : i < j) (hj : j < l.length) : l.getD i 0 < l.getD j 0 := by
  have hp : List.Pairwise (· < ·) l := List.chain'_iff_pairwise.mp h
  rw [List.pairwise_iff_getElem] at hp
  have hi : i < l.length := lt_trans hij hj
  rw [List.getD_eq_getElem?_getD, List.getElem?_eq_getElem hi,
    List.getD_eq_getElem?_getD, List.getElem?_eq_getElem hj]
  exact hp i j hi hj hij

theorem firstBracket_le (q : ℚ) : ∀ (oc : List ℚ) (j : ℕ),
    firstBracket q oc = some j → j + 2 ≤ oc.length := by
  intro oc
  induction oc with
  | nil => intro j h; simp [firstBracket] at h
  | cons x rest ih =>
    cases rest with
    | nil => intro j h; simp [firstBracket] at h
    | cons y rest2 =>
      intro j h
      rw [firstBracket] at h
      by_cases hb : x ≤ q ∧ q ≤ y
      · rw [if_pos hb] at h
        injection h with h
        subst h
        simp
      · rw [if_neg hb] at h
        cases hf : firstBracket q (y :: rest2) with
        | none => rw [hf] at h; simp at h
        | some j2 =>
          rw [hf] at h
          have hj : j2 + 1 = j := by simpa using h
          have := ih j2 hf
          simp only [List.length_cons] at *
          omega

theorem bracketIdx_le (q : ℚ) (oc : List ℚ) (h2 : 2 ≤ oc.length) :
    bracketIdx oc q + 2 ≤ oc.length := by
  cases hf : firstBracket q oc with
  | none => unfold bracketIdx; simp only [hf]; omega
  | some j =>
    unfold bracketIdx
    simp only [hf]
    have := firstBracket_le q oc j hf
    omega

theorem loopSel_eq (q : ℚ) : ∀ (oc : List ℚ) (i0 : ℕ), 2 ≤ oc.length →
    loopSel q oc i0 = i0 + bracketIdx oc q := by
  intro oc
  induction oc with
  | nil => intro i0 h; simp at h
  | cons x rest ih =>
    cases rest with
    | nil => intro i0 h; simp at h
    | cons y rest2 =>
      intro i0 h
      cases rest2 with
      | nil =>
        by_cases hb : x ≤ q ∧ q ≤ y <;>
          simp [loopSel, bracketIdx, firstBracket, hb]
      | cons z rest3 =>
        by_cases hb : x ≤ q ∧ q ≤ y
        · simp [loopSel, bracketIdx, firstBracket, hb]
        · have hstep : loopSel q (x :: y :: z :: rest3) i0 =
              loopSel q (y :: z :: rest3) (i0 + 1) := by
            rw [loopSel, if_neg hb]
          have hR : firstBracket q (x :: y :: z :: rest3) =
              (firstBracket q (y :: z :: rest3)).map (· + 1) := by
            rw [firstBracket, if_neg hb]
          rw [hstep, ih (i0 + 1) (by simp)]
          unfold bracketIdx
          rw [hR]
          cases hf : firstBracket q (y :: z :: rest3) with
          | none => simp [hf]; omega
          | some j => simp [hf]; omega

theorem transform_eq_fixed (original scaled : List (ℚ × ℚ))
    (q : ℚ) (hlen : original.length = scaled.length)
    (hne : 1 ≤ original.length) :
    transform original scaled q = some (transform_fixed original scaled q) := by
  have hoc := flattenPairs_length original
  have hsc := flattenPairs_length scaled
  have h2 : 2 ≤ (flattenPairs original).length := by omega
  have hscoc : (flattenPairs scaled).length =
      (flattenPairs original).length := by omega
  have hidx : loopSel q (flattenPairs original) 0 =
      bracketIdx (flattenPairs original) q := by
    have := loopSel_eq q (flattenPairs original) 0 h2
    omega
  have hile := bracketIdx_le q (flattenPairs original) h2
  set i := bracketIdx (flattenPairs original) q with hidef
  have hoi : (flattenPairs original)[i]? =
      some ((flattenPairs original).getD i 0) :=
    getElem?_eq_some_getD _ _ (by omega)
  have hoi1 : (flattenPairs original)[i + 1]? =
      some ((flattenPairs original).getD (i + 1) 0) :=
    getElem?_eq_some_getD _ _ (by omega)
  have hsi : (flattenPairs scaled)[i]? =
      some ((flattenPairs scaled).getD i 0) :=
    getElem?_eq_some_getD _ _ (by omega)
  simp only [transform, transform_fixed]
  rw [if_neg (by omega : ¬ (flattenPairs original).length < 2)]
  rw [hidx]
  rw [← hidef]
  simp only [hoi, hoi1]
  by_cases hcond : i + 2 < (flattenPairs scaled).length
  · have hsi1 : (flattenPairs scaled)[i + 1]? =
        some ((flattenPairs scaled).getD (i + 1) 0) :=
      getElem?_eq_some_getD _ _ (by omega)
    simp only [if_pos hcond, hsi, hsi1]
    split_ifs <;> rfl
  · simp only [if_neg hcond, hsi]
    split_ifs <;> rfl

theorem firstBracket_strictMono (q : ℚ) : ∀ oc : List ℚ,
    List.Chain' (· < ·) oc → ∀ k : ℕ, k < oc.length → 2 ≤ oc.length →
    oc.getD k 0 = q → firstBracket q oc = some (k - 1) := by
  intro oc
  induction oc with
  | nil => intro _ k hk _ _; simp at hk
  | cons x rest ih =>
    cases rest with
    | nil => intro _ k _ h2 _; simp at h2
    | cons y rest2 =>
      intro hchain k hk h2 hq
      have hxy : x < y := (List.chain'_cons.mp hchain).1
      match k with
      | 0 =>
        rw [List.getD_cons_zero] at hq
        rw [firstBracket, if_pos ⟨le_of_eq hq, hq ▸ le_of_lt hxy⟩]
      | 1 =>
        rw [List.getD_cons_succ, List.getD_cons_zero] at hq
        rw [firstBracket, if_pos ⟨hq ▸ le_of_lt hxy, le_of_eq hq.symm⟩]
      | (k3 + 2) =>
        have htail : List.Chain' (· < ·) (y :: rest2) :=
          (List.chain'_cons.mp hchain).2
        have hklen : k3 + 1 < (y :: rest2).length := by
          simp only [List.length_cons] at hk ⊢
          omega
        have hq2 : (y :: rest2).getD (k3 + 1) 0 = q := by
          rw [List.getD_cons_succ] at hq
          rw [List.getD_cons_succ]
          exact hq
        have hyq : y < q := by
          have := chain'_getD_lt (y :: rest2) htail 0 (k3 + 1)
            (by omega) hklen
          rw [List.getD_cons_zero, hq2] at this
          exact this
        rw [firstBracket, if_neg (by
          rintro ⟨-, hqy⟩
          exact absurd hqy (not_le.mpr hyq))]
        rw [ih htail (k3 + 1) hklen
          (by simp only [List.length_cons] at hklen ⊢; omega) hq2]
        simp

/-- Claim C3 (amended): for index-aligned interval lists of equal length
with strictly increasing flattened original coordinates, a query equal to
any breakpoint of the flattened original sequence other than the last one
is mapped by transform exactly to the scaled breakpoint at the same
flattened index.  (At the last breakpoint the fallback branch returns the
query itself instead, refuting the unamended claim.) -/
theorem C3_transform_breakpoint_roundtrip (original scaled : List (ℚ × ℚ))
    (k : ℕ) (hlen : original.length = scaled.length)
    (hmono : List.Chain' (· < ·) (flattenPairs original))
    (hk : k + 1 < (flattenPairs original).length) :
    transform original scaled ((flattenPairs original).getD k 0) =
      some ((flattenPairs scaled).getD k 0) := by
  have hoc := flattenPairs_length original
  have hsc := flattenPairs_length scaled
  have hne : 1 ≤ original.length := by omega
  have hsceq : (flattenPairs scaled).length =
      (flattenPairs original).length := by omega
  rw [transform_eq_fixed original scaled _ hlen hne]
  congr 1
  have hb : bracketIdx (flattenPairs original)
      ((flattenPairs original).getD k 0) = k - 1 := by
    unfold bracketIdx
    rw [firstBracket_strictMono _ (flattenPairs original) hmono k
      (by omega) (by omega) rfl]
  simp only [transform_fixed]
  rw [hb]
  cases k with
  | zero =>
    simp only [Nat.zero_sub]
    have hne01 : (flattenPairs original).getD 1 0 -
        (flattenPairs original).getD 0 0 ≠ 0 := by
      have := chain'_getD_lt (flattenPairs original) hmono 0 1
        (by omega) (by omega)
      intro hcontra
      rw [sub_eq_zero] at hcontra
      exact absurd hcontra (ne_of_gt this)
    rw [if_neg hne01]
    simp [sub_self]
  | succ k2 =>
    simp only [Nat.succ_sub_one]
    have hcond : k2 + 2 < (flattenPairs scaled).length := by omega
    rw [if_pos hcond]
    have hne01 : (flattenPairs original).getD (k2 + 1) 0 -
        (flattenPairs original).getD k2 0 ≠ 0 := by
      have := chain'_getD_lt (flattenPairs original) hmono k2 (k2 + 1)
        (by omega) (by omega)
      intro hcontra
      rw [sub_eq_zero] at hcontra
      exact absurd hcontra (ne_of_gt this)
    rw [if_neg hne01]
    rw [mul_comm, mul_div_assoc, div_self hne01, mul_one, sub_add_cancel]

/-- Closed instance of C3 (amended): breakpoint 500, the third flattened
coordinate of the rescaler scenario, maps exactly to the scaled
breakpoint 230. -/
theorem C3_transform_breakpoint_roundtrip_witness :
    transform [((100 : ℚ), 200), (500, 600), (900, 1000)]
      [(100, 200), (230, 330), (360, 460)] 500 = some 230 := by
  have h := C3_transform_breakpoint_roundtrip
    [((100 : ℚ), 200), (500, 600), (900, 1000)]
    [(100, 200), (230, 330), (360, 460)] 2 rfl
    (by norm_num [flattenPairs, List.chain'_cons])
    (by norm_num [flattenPairs])
  simpa [flattenPairs] using h

/-- Counterexample to C3 as stated: on the rescaler scenario itself, the
query equal to the last breakpoint 1000 is mapped to 1000, not to the
scaled breakpoint 460 at the same flattened index. -/
theorem C3_transform_last_breakpoint_cex :
    scale_introns [((100 : ℚ), 200), (500, 600), (900, 1000)] 10 =
      some [(100, 200), (230, 330), (360, 460)] ∧
    transform [((100 : ℚ), 200), (500, 600), (900, 1000)]
      [(100, 200), (230, 330), (360, 460)] 1000 = some 1000 ∧
    (1000 : ℚ) ≠ 460 := by
  refine ⟨by norm_num [scale_introns, scaleAux], ?_, by norm_num⟩
  norm_num [transform, flattenPairs, loopSel]

/-- Claim C4 (amended): transform selects the first flattened original
pair bracketing the query (defaulting to the last pair); it uses the
scaled pair at that index only when the flattened scaled sequence extends
strictly beyond index i+1, and otherwise, even when a scaled pair exists
at that index as its final pair, it falls back to the query itself as the
scaled right bound; a zero-width original segment returns the left scaled
bound. -/
theorem C4_transform_characterization (original scaled : List (ℚ × ℚ))
    (q : ℚ) (hlen : original.length = scaled.length)
    (hne : 1 ≤ original.length) :
    transform original scaled q =
      some (transform_fixed original scaled q) :=
  transform_eq_fixed original scaled q hlen hne

/-- Closed instance of C4 (amended) on a two-exon pair. -/
theorem C4_transform_characterization_witness :
    transform [((0 : ℚ), 2)] [((5 : ℚ), 7)] 1 =
      some (transform_fixed [((0 : ℚ), 2)] [((5 : ℚ), 7)] 1) :=
  C4_transform_characterization _ _ _ rfl (by norm_num)

/-- Counterexample to C4 as stated: with equal-length lists, a query
bracketed by the final pair has a corresponding scaled pair at that index
(the claimed rule would interpolate against (20, 30) and produce 25), yet
the source falls back to the query as the scaled right bound and returns
45/4. -/
theorem C4_transform_fallback_cex :
    transform [((0 : ℚ), 1), (2, 3)] [((0 : ℚ), 10), (20, 30)] (5 / 2) =
      some (45 / 4) ∧
    transform_claimed [((0 : ℚ), 1), (2, 3)] [((0 : ℚ), 10), (20, 30)]
      (5 / 2) = 25 ∧
    (45 / 4 : ℚ) ≠ 25 := by
  refine ⟨?_, ?_, by norm_num⟩
  · norm_num [transform, flattenPairs, loopSel]
  · norm_num [transform_claimed, flattenPairs, bracketIdx, firstBracket]

/-- Claim C9 (amended): each collision-resolution call, whenever it
terminates, returns a box for which the collision test against the fixed
reference box is false, for every outcome of the randomized jitter
choices; the unamended all-pairs postcondition after the full loop is
refuted by the counterexample. -/
theorem C9_intersect_postcondition (a : Box) (subtract : Bool) :
    ∀ (js : List Bool) (b b2 : Box) (js2 : List Bool),
    intersect a subtract js b = some (b2, js2) → ¬ collides a b2 := by
  intro js
  induction js with
  | nil =>
    intro b b2 js2 h
    rw [intersect] at h
    by_cases hc : collides a b
    · rw [if_pos hc] at h
      simp at h
    · rw [if_neg hc] at h
      simp only [Option.some.injEq, Prod.mk.injEq] at h
      rw [← h.1]
      exact hc
  | cons j rest ih =>
    intro b b2 js2 h
    rw [intersect] at h
    by_cases hc : collides a b
    · rw [if_pos hc] at h
      exact ih _ _ _ h
    · rw [if_neg hc] at h
      simp only [Option.some.injEq, Prod.mk.injEq] at h
      rw [← h.1]
      exact hc

/-- Closed instance of C9 (amended): resolving two initially identical
labels leaves the second one clear of the first. -/
theorem C9_intersect_postcondition_witness :
    ¬ collides ⟨1/20, 1/10, 0, 1/20⟩ ⟨11/200, 21/200, 2/25, 13/100⟩ :=
  C9_intersect_postcondition ⟨1/20, 1/10, 0, 1/20⟩ false
    [true, true, true, true] ⟨1/20, 1/10, 0, 1/20⟩
    ⟨11/200, 21/200, 2/25, 13/100⟩ []
    (by norm_num [intersect, moveBox, collides])

/-- Counterexample to C9 as stated: after the full resolution loop over
three concrete boxes (with the jitter always choosing the positive
direction), the first two boxes still collide under the same tolerance
test used during resolution. -/
theorem C9_label_layout_cex :
    resolveAll false
      [⟨1/20, 1/10, 0, 1/20⟩, ⟨1/20, 1/10, 0, 1/20⟩,
       ⟨0, 2/5, -(1/20), 0⟩]
      [true, true, true, true, true, true, true, true] =
      some ([⟨3/50, 11/100, 1/50, 7/100⟩,
             ⟨11/200, 21/200, 2/25, 13/100⟩,
             ⟨0, 2/5, -(1/20), 0⟩], [true, true, true]) ∧
    collides ⟨3/50, 11/100, 1/50, 7/100⟩
      ⟨11/200, 21/200, 2/25, 13/100⟩ := by
  have hp : pairList 3 = [(0, 1), (0, 2), (1, 0), (1, 2), (2, 0), (2, 1)] := by
    decide
  have h1 : intersect ⟨1/20, 1/10, 0, 1/20⟩ false
      [true, true, true, true, true, true, true, true]
      ⟨1/20, 1/10, 0, 1/20⟩ =
      some (⟨11/200, 21/200, 2/25, 13/100⟩, [true, true, true, true]) := by
    norm_num [intersect, moveBox, collides]
  have h2 : intersect ⟨1/20, 1/10, 0, 1/20⟩ false [true, true, true, true]
      ⟨0, 2/5, -(1/20), 0⟩ =
      some (⟨0, 2/5, -(1/20), 0⟩, [true, true, true, true]) := by
    norm_num [intersect, moveBox, collides]
  have h3 : intersect ⟨11/200, 21/200, 2/25, 13/100⟩ false
      [true, true, true, true] ⟨1/20, 1/10, 0, 1/20⟩ =
      some (⟨1/20, 1/10, 0, 1/20⟩, [true, true, true, true]) := by
    norm_num [intersect, moveBox, collides]
  have h4 : intersect ⟨11/200, 21/200, 2/25, 13/100⟩ false
      [true, true, true, true] ⟨0, 2/5, -(1/20), 0⟩ =
      some (⟨0, 2/5, -(1/20), 0⟩, [true, true, true, true]) := by
    norm_num [intersect, moveBox, collides]
  have h5 : intersect ⟨0, 2/5, -(1/20), 0⟩ false [true, true, true, true]
      ⟨1/20, 1/10, 0, 1/20⟩ =
      some (⟨3/50, 11/100, 1/50, 7/100⟩, [true, true, true]) := by
    norm_num [intersect, moveBox, collides]
  have h6 : intersect ⟨0, 2/5, -(1/20), 0⟩ false [true, true, true]
      ⟨11/200, 21/200, 2/25, 13/100⟩ =
      some (⟨11/200, 21/200, 2/25, 13/100⟩, [true, true, true]) := by
    norm_num [intersect, moveBox, collides]
  constructor
  · simp only [resolveAll, List.length_cons, List.length_nil]
    rw [show (0 + 1 + 1 + 1 : ℕ) = 3 by norm_num]
    rw [hp]
    simp only [resolvePairs, List.getElem?_cons_zero, List.getElem?_cons_succ,
      h1, h2, h3, h4, h5, h6, List.set]
  · norm_num [collides]

end SpliceV

